import Mathlib

/-!
Verification of the file-system-backed experiment tracking store and the
local artifact repository of this repository.

The `FileStore` (experiments, runs, params, metrics, tags, search) is not
shipped in this source snapshot (only its test-suite is), so its operations
are modelled from the specification document; every such definition carries a
doc comment starting with `Modelled from the spec:`.  The local artifact
repository (`mlflow/store/local_artifact_repo.py`) is present in the source
and is embedded directly; its two helpers (`path_not_unique`, file listing)
live elsewhere in the package and are modelled from the spec as well.
-/

/-- Error taxonomy of the store (spec section 7). -/
inductive ErrorCode where
  | RESOURCE_DOES_NOT_EXIST
  | INTERNAL_ERROR
  | INVALID_PARAMETER_VALUE
  | RESOURCE_ALREADY_EXISTS
  | MISSING_CONFIG
  | ID_MISMATCH
  | INVALID_STATE
deriving DecidableEq, Repr

/-- An operation-level error: a code from the taxonomy plus a message. -/
structure StoreError where
  code : ErrorCode
  message : String
deriving DecidableEq, Repr

/-- Soft-delete marker of experiments and runs. -/
inductive LifecycleStage where
  | active
  | deleted
deriving DecidableEq, BEq, Repr

/-- Query filter over lifecycle stage. -/
inductive ViewType where
  | ACTIVE_ONLY
  | DELETED_ONLY
  | ALL
deriving DecidableEq, Repr

/-- Whether a lifecycle stage passes the view-type filter. -/
def viewTypeMatches (vt : ViewType) (st : LifecycleStage) : Bool :=
  match vt with
  | .ACTIVE_ONLY => st == .active
  | .DELETED_ONLY => st == .deleted
  | .ALL => true

/-- One metric sample: one line of an append-only metric log. -/
structure MetricSample where
  timestamp : Int
  step : Int
  value : Int
deriving DecidableEq, Repr

/-- The ordering key of a metric sample, spec section 4.2: the current value
of a metric is the maximal sample under the lexicographic ordering
(step, timestamp, value). -/
def sampleKey (m : MetricSample) : Lex (Int × Lex (Int × Int)) :=
  toLex (m.step, toLex (m.timestamp, m.value))

/-- A sample is fully determined by its ordering key. -/
theorem sampleKey_inj {a b : MetricSample} (h : sampleKey a = sampleKey b) : a = b := by
  cases a
  cases b
  simp only [sampleKey, toLex, Equiv.refl_apply, Prod.mk.injEq] at h
  obtain ⟨h1, h2, h3⟩ := h
  simp_all

/-- Association-list lookup (first match). -/
def alookup {α : Type} (k : String) : List (String × α) → Option α
  | [] => none
  | (k1, v) :: t => if k1 = k then some v else alookup k t

/-- Association-list write: replace the value in place if the key is present,
append a new entry otherwise. -/
def upsert {α : Type} (k : String) (v : α) : List (String × α) → List (String × α)
  | [] => [(k, v)]
  | (k1, v1) :: t => if k1 = k then (k, v) :: t else (k1, v1) :: upsert k v t

/-- Apply a batch of association-list writes left to right. -/
def upsertAll {α : Type} (m : List (String × α)) (l : List (String × α)) :
    List (String × α) :=
  l.foldl (fun acc kv => upsert kv.1 kv.2 acc) m

/-- The value of the last occurrence of a key in a request list. -/
def lastVal {α : Type} (k : String) : List (String × α) → Option α
  | [] => none
  | (k1, v) :: t =>
    match lastVal k t with
    | some w => some w
    | none => if k1 = k then some v else none

theorem alookup_upsert {α : Type} (k k0 : String) (v0 : α) (m : List (String × α)) :
    alookup k (upsert k0 v0 m) = if k0 = k then some v0 else alookup k m := by
  induction m with
  | nil => simp [upsert, alookup]
  | cons h t ih =>
    obtain ⟨k1, v1⟩ := h
    by_cases h1 : k1 = k0
    · subst h1
      simp only [upsert, if_pos rfl, alookup]
      by_cases h2 : k1 = k <;> simp [h2]
    · simp only [upsert, if_neg h1, alookup]
      by_cases h2 : k1 = k
      · subst h2
        have : ¬ k0 = k1 := fun h => h1 h.symm
        simp [this]
      · simp [h2, ih]

theorem alookup_upsertAll {α : Type} (k : String) (m l : List (String × α)) :
    alookup k (upsertAll m l) =
      match lastVal k l with
      | some v => some v
      | none => alookup k m := by
  induction l generalizing m with
  | nil => simp [upsertAll, lastVal]
  | cons h t ih =>
    obtain ⟨k0, v0⟩ := h
    have step : upsertAll m ((k0, v0) :: t) = upsertAll (upsert k0 v0 m) t := rfl
    rw [step, ih]
    cases hlast : lastVal k t with
    | some w => simp [lastVal, hlast]
    | none =>
      simp only [lastVal, hlast]
      rw [alookup_upsert]
      by_cases h2 : k0 = k <;> simp [h2]

/-- The key list of an association list. -/
def keysOf {α : Type} (m : List (String × α)) : List String :=
  m.map Prod.fst

theorem keysOf_upsert {α : Type} (k : String) (v : α) (m : List (String × α)) :
    keysOf (upsert k v m) = if k ∈ keysOf m then keysOf m else keysOf m ++ [k] := by
  induction m with
  | nil => simp [upsert, keysOf]
  | cons h t ih =>
    obtain ⟨k1, v1⟩ := h
    by_cases h1 : k1 = k
    · subst h1
      simp [upsert, keysOf]
    · simp only [upsert, if_neg h1, keysOf, List.map_cons]
      have hne : ¬ k = k1 := fun h => h1 h.symm
      by_cases h2 : k ∈ keysOf t
      · simp [keysOf] at h2
        simp [keysOf, h2, hne] at ih ⊢
        exact ih
      · simp [keysOf] at h2
        simp [keysOf, h2, hne] at ih ⊢
        exact ih

theorem nodup_keysOf_upsert {α : Type} (k : String) (v : α) (m : List (String × α))
    (h : (keysOf m).Nodup) : (keysOf (upsert k v m)).Nodup := by
  rw [keysOf_upsert]
  by_cases h1 : k ∈ keysOf m
  · simpa [h1] using h
  · simp only [h1, if_false]
    simpa [List.nodup_append] using ⟨h, h1⟩

theorem nodup_keysOf_upsertAll {α : Type} (m l : List (String × α))
    (h : (keysOf m).Nodup) : (keysOf (upsertAll m l)).Nodup := by
  induction l generalizing m with
  | nil => exact h
  | cons hd t ih =>
    have step : upsertAll m (hd :: t) = upsertAll (upsert hd.1 hd.2 m) t := rfl
    rw [step]
    exact ih _ (nodup_keysOf_upsert hd.1 hd.2 m h)

theorem mem_keysOf_alookup {α : Type} {k : String} {m : List (String × α)}
    (h : k ∈ keysOf m) : ∃ v, alookup k m = some v := by
  induction m with
  | nil => simp [keysOf] at h
  | cons hd t ih =>
    obtain ⟨k1, v1⟩ := hd
    by_cases h1 : k1 = k
    · exact ⟨v1, by simp [alookup, h1]⟩
    · have : k ∈ keysOf t := by
        simp [keysOf] at h
        rcases h with h | h
        · exact absurd h.symm h1
        · simpa [keysOf] using h
      obtain ⟨v, hv⟩ := ih this
      exact ⟨v, by simp [alookup, h1, hv]⟩

theorem alookup_mem_keysOf {α : Type} {k : String} {m : List (String × α)} {v : α}
    (h : alookup k m = some v) : k ∈ keysOf m := by
  induction m with
  | nil => simp [alookup] at h
  | cons hd t ih =>
    obtain ⟨k1, v1⟩ := hd
    by_cases h1 : k1 = k
    · simp [keysOf, h1]
    · simp only [alookup, if_neg h1] at h
      have h2 := ih h
      simp only [keysOf] at h2 ⊢
      simp only [List.map_cons, List.mem_cons]
      exact Or.inr h2

/-- Append a sample to the append-only metric log of a key, creating the log
when the key is new (spec section 4.2: one append-only file per metric key,
a logged sample is appended as a new line, never rewriting existing lines). -/
def appendMetric (k : String) (x : MetricSample) :
    List (String × List MetricSample) → List (String × List MetricSample)
  | [] => [(k, [x])]
  | (k1, l) :: t =>
    if k1 = k then (k, l ++ [x]) :: t else (k1, l) :: appendMetric k x t

/-- The current value of a metric log: the maximal sample under the
lexicographic (step, timestamp, value) ordering (spec sections 4.2 and 3). -/
def currentSample : List MetricSample → Option MetricSample
  | [] => none
  | h :: t => some (t.foldl (fun a x => if sampleKey a ≤ sampleKey x then x else a) h)

/-- Metadata document of a run (spec section 3): recorded run id, owning
experiment id, start time and lifecycle stage.  Ids of experiments are decimal
strings in the repository; they are modelled as naturals. -/
structure RunMeta where
  runId : String
  experimentId : Nat
  startTime : Int
  lifecycleStage : LifecycleStage
deriving DecidableEq, Repr

/-- A run directory on disk: directory name (the run id key), an optional
metadata document (`none` models a missing or unparsable document), the params
files, the tags and the per-key append-only metric logs (spec section 6). -/
structure RunDir where
  dirName : String
  meta : Option RunMeta
  params : List (String × String)
  tags : List (String × String)
  metrics : List (String × List MetricSample)
deriving DecidableEq, Repr

/-- Metadata document of an experiment. -/
structure ExpMeta where
  experimentId : Nat
  name : String
  lifecycleStage : LifecycleStage
deriving DecidableEq, Repr

/-- An experiment directory: directory name (the experiment id key), an
optional metadata document and the run directories it contains. -/
structure ExpDir where
  dirName : Nat
  meta : Option ExpMeta
  runs : List RunDir
deriving DecidableEq, Repr

/-- The whole store: the root directory, one subdirectory per experiment. -/
structure FileStore where
  root : List ExpDir
deriving DecidableEq, Repr

/-- Modelled from the spec: the well-known default experiment id reserved at
store-initialization time (spec section 4.4). -/
def DEFAULT_EXPERIMENT_ID : Nat := 0

/-- Modelled from the spec: the enforced hard ceiling on `max_results` of
`search_runs` (spec section 4.5; the numeric value of the ceiling is not
fixed by the spec, only its existence). -/
def SEARCH_MAX_RESULTS_THRESHOLD : Nat := 50000

/-- Find a run directory by directory name inside one experiment. -/
def findRunIn (rid : String) : List RunDir → Option RunDir
  | [] => none
  | r :: t => if r.dirName = rid then some r else findRunIn rid t

/-- Find the experiment directory and run directory of a run id. -/
def findRunDir (rid : String) : List ExpDir → Option (ExpDir × RunDir)
  | [] => none
  | e :: t =>
    match findRunIn rid e.runs with
    | some r => some (e, r)
    | none => findRunDir rid t

/-- Modelled from the spec: resolving a run id (spec section 4.3 `get`):
fails with `RESOURCE_DOES_NOT_EXIST` when no run directory exists, with
`MissingConfig` when the metadata document is absent, and with an id-mismatch
error when the recorded experiment id disagrees with the experiment directory
the run was found under. -/
def resolveRun (s : FileStore) (rid : String) :
    Except StoreError (ExpDir × RunDir × RunMeta) :=
  match findRunDir rid s.root with
  | none => .error ⟨.RESOURCE_DOES_NOT_EXIST, "Run " ++ rid ++ " not found"⟩
  | some (e, r) =>
    match r.meta with
    | none => .error ⟨.MISSING_CONFIG, "Run " ++ rid ++ " metadata does not exist"⟩
    | some m =>
      if m.experimentId = e.dirName then .ok (e, r, m)
      else .error ⟨.ID_MISMATCH, "Run " ++ rid ++ " metadata is in invalid state"⟩

/-- Materialized run data returned by `get`: param mapping, tag mapping and
the per-metric current values (spec section 4.3). -/
structure RunData where
  params : List (String × String)
  tags : List (String × String)
  metrics : List (String × MetricSample)
deriving DecidableEq, Repr

/-- A materialized run: info plus data. -/
structure RunRecord where
  info : RunMeta
  data : RunData
deriving DecidableEq, Repr

/-- Modelled from the spec: `get(run_id)` assembles the run from its metadata
document plus the full param mapping, the tag mapping and the per-metric
current-value mapping (spec section 4.3). -/
def getRun (s : FileStore) (rid : String) : Except StoreError RunRecord :=
  match resolveRun s rid with
  | .error e => .error e
  | .ok (_, r, m) =>
    .ok ⟨m, ⟨r.params, r.tags,
      r.metrics.filterMap (fun kl => (currentSample kl.2).map (fun c => (kl.1, c)))⟩⟩

/-- Modelled from the spec: reading a metric history returns every logged
sample of the key in file order, duplicates included (spec section 4.2). -/
def getMetricHistory (s : FileStore) (rid : String) (key : String) :
    Except StoreError (List MetricSample) :=
  match resolveRun s rid with
  | .error e => .error e
  | .ok (_, r, _) =>
    match alookup key r.metrics with
    | some l => .ok l
    | none => .error ⟨.RESOURCE_DOES_NOT_EXIST, "Metric " ++ key ++ " not found"⟩

/-- Rewrite the run directory of a run id in place. -/
def mapRunsOf (rid : String) (f : RunDir → RunDir) (e : ExpDir) : ExpDir :=
  { e with runs := e.runs.map (fun r => if r.dirName = rid then f r else r) }

/-- Apply a run-directory rewrite to the whole store. -/
def updateRun (s : FileStore) (rid : String) (f : RunDir → RunDir) : FileStore :=
  ⟨s.root.map (mapRunsOf rid f)⟩

/-- The error raised when mutating a run whose lifecycle stage is not active. -/
def notActiveError (rid : String) : StoreError :=
  ⟨.INVALID_STATE, "The run " ++ rid ++ " must be in an active lifecycle_stage"⟩

/-- Modelled from the spec: the shared shape of every run mutation (spec
section 4.3): resolve the run, fail when it is not active, otherwise rewrite
its directory. -/
def mutateRun (s : FileStore) (rid : String) (f : RunDir → RunDir) :
    Except StoreError FileStore :=
  match resolveRun s rid with
  | .error e => .error e
  | .ok (_, _, m) =>
    if m.lifecycleStage = .active then .ok (updateRun s rid f)
    else .error (notActiveError rid)

/-- Modelled from the spec: `log_param` (spec section 4.3) — fails when the
run is not active; a duplicate key is overwritten in place (idempotent when
the value is identical). -/
def logParam (s : FileStore) (rid : String) (k v : String) :
    Except StoreError FileStore :=
  mutateRun s rid (fun r => { r with params := upsert k v r.params })

/-- Modelled from the spec: `set_tag` (spec section 4.3) — fails when the run
is not active, otherwise always overwrites. -/
def setTag (s : FileStore) (rid : String) (k v : String) :
    Except StoreError FileStore :=
  mutateRun s rid (fun r => { r with tags := upsert k v r.tags })

/-- Modelled from the spec: `log_metric` (spec section 4.3) — fails when the
run is not active, otherwise appends to the append-only log of the key. -/
def logMetric (s : FileStore) (rid : String) (key : String) (x : MetricSample) :
    Except StoreError FileStore :=
  mutateRun s rid (fun r => { r with metrics := appendMetric key x r.metrics })

/-- Modelled from the spec: `delete(run_id)` / `restore(run_id)` toggle the
lifecycle stage in the metadata document without moving the directory (spec
section 4.3). -/
def setRunLifecycle (s : FileStore) (rid : String) (st : LifecycleStage) :
    Except StoreError FileStore :=
  match resolveRun s rid with
  | .error e => .error e
  | .ok _ =>
    .ok (updateRun s rid
      (fun r => { r with meta := r.meta.map (fun m => { m with lifecycleStage := st }) }))

/-- Modelled from the spec: `delete(run_id)`. -/
def deleteRun (s : FileStore) (rid : String) : Except StoreError FileStore :=
  setRunLifecycle s rid .deleted

/-- Modelled from the spec: `restore(run_id)`. -/
def restoreRun (s : FileStore) (rid : String) : Except StoreError FileStore :=
  setRunLifecycle s rid .active

/-- Modelled from the spec: `get(experiment_id)` (spec section 4.4) — fails
with `ResourceDoesNotExist` on an absent directory, `MissingConfig` on an
absent metadata document, and an id-mismatch error when the recorded id
disagrees with the directory name (directory-rename corruption detection). -/
def getExperiment (s : FileStore) (eid : Nat) : Except StoreError ExpMeta :=
  match s.root.find? (fun e => e.dirName == eid) with
  | none =>
    .error ⟨.RESOURCE_DOES_NOT_EXIST, "Could not find experiment with ID " ++ toString eid⟩
  | some e =>
    match e.meta with
    | none => .error ⟨.MISSING_CONFIG, "Experiment metadata does not exist"⟩
    | some m =>
      if m.experimentId = e.dirName then .ok m
      else .error ⟨.ID_MISMATCH, "Experiment metadata is in invalid state"⟩

/-- Modelled from the spec: `list(view_type)` over experiments (spec sections
4.4 and 7) — corrupt entries (missing metadata, id mismatch) are skipped
rather than failing the whole listing. -/
def listExperiments (s : FileStore) (vt : ViewType) : List ExpMeta :=
  s.root.filterMap (fun e =>
    match e.meta with
    | none => none
    | some m =>
      if m.experimentId = e.dirName && viewTypeMatches vt m.lifecycleStage then some m
      else none)

/-- Modelled from the spec: the id allocated by `create(name)` (spec section
4.4) — `max(existing numeric ids) + 1`; the very first call on an empty store
allocates the well-known default id. -/
def nextExperimentId (s : FileStore) : Nat :=
  match (listExperiments s .ALL).map (fun m => m.experimentId) with
  | [] => DEFAULT_EXPERIMENT_ID
  | i :: t => (t.foldl max i) + 1

/-- Modelled from the spec: the directory created for a new experiment. -/
def newExpDir (newId : Nat) (name : String) : ExpDir :=
  ⟨newId, some ⟨newId, name, .active⟩, []⟩

/-- Modelled from the spec: `create(name)` body (spec section 4.4). -/
def createExperiment (s : FileStore) (name : String) :
    Except StoreError (Nat × FileStore) :=
  if name = "" then .error ⟨.INVALID_PARAMETER_VALUE, "Invalid experiment name"⟩
  else if (listExperiments s .ALL).any (fun m => m.name == name) then
    .error ⟨.RESOURCE_ALREADY_EXISTS, "Experiment " ++ name ++ " already exists"⟩
  else
    .ok (nextExperimentId s, ⟨s.root ++ [newExpDir (nextExperimentId s) name]⟩)

/-- A run materialized for search: the experiment directory it came from,
its info document and its tag mapping. -/
structure RunEntry where
  experimentId : Nat
  info : RunMeta
  tags : List (String × String)
deriving DecidableEq, Repr

/-- Modelled from the spec: search candidates — the healthy runs of the given
experiments passing the view-type filter; corrupt run directories (missing
metadata, experiment-id mismatch) are skipped (spec sections 4.5 and 7). -/
def candidateRuns (s : FileStore) (eids : List Nat) (vt : ViewType) : List RunEntry :=
  (eids.map (fun eid =>
    match s.root.find? (fun e => e.dirName == eid) with
    | none => []
    | some e =>
      e.runs.filterMap (fun r =>
        match r.meta with
        | none => none
        | some m =>
          if m.experimentId = e.dirName && viewTypeMatches vt m.lifecycleStage then
            some ⟨e.dirName, m, r.tags⟩
          else none))).flatten

/-- String comparators of the filter grammar used on tag values. -/
inductive StrComp where
  | eq
  | ne
deriving DecidableEq, Repr

/-- One `tags.<key> <comparator> <value>` clause of the filter language. -/
structure TagClause where
  key : String
  comp : StrComp
  value : String
deriving DecidableEq, Repr

/-- Modelled from the spec: clause evaluation (spec section 4.5) — a run
missing the referenced key evaluates the clause as false, not an error. -/
def evalTagClause (x : RunEntry) (c : TagClause) : Bool :=
  match alookup c.key x.tags with
  | none => false
  | some v =>
    match c.comp with
    | .eq => v == c.value
    | .ne => v != c.value

/-- A run matches a filter when every clause evaluates to true. -/
def matchesFilter (x : RunEntry) (f : List TagClause) : Bool :=
  f.all (evalTagClause x)

/-- Modelled from the spec: the deterministic search ordering key (spec
section 4.5) — default-experiment runs last, then start time descending
(negated start time ascending), then run id ascending. -/
def searchKey (x : RunEntry) : Lex (Bool × Lex (Int × String)) :=
  toLex (x.experimentId == DEFAULT_EXPERIMENT_ID, toLex (-x.info.startTime, x.info.runId))

/-- The search ordering relation on materialized runs. -/
def runOrd (a b : RunEntry) : Prop :=
  searchKey a ≤ searchKey b

instance : DecidableRel runOrd :=
  fun a b => inferInstanceAs (Decidable (searchKey a ≤ searchKey b))

instance : IsTotal RunEntry runOrd :=
  ⟨fun a b => le_total (searchKey a) (searchKey b)⟩

instance : IsTrans RunEntry runOrd :=
  ⟨fun _ _ _ h1 h2 => le_trans h1 h2⟩

/-- Sort materialized runs by the deterministic search ordering. -/
def sortRuns (l : List RunEntry) : List RunEntry :=
  List.insertionSort runOrd l

/-- Modelled from the spec: `search_runs` (spec section 4.5) — rejects a
`max_results` beyond the hard ceiling with an `InvalidParameterValue`-class
error; otherwise materializes the candidates, filters them by every clause,
sorts them by the deterministic ordering and truncates to `max_results`. -/
def searchRuns (s : FileStore) (eids : List Nat) (f : List TagClause)
    (vt : ViewType) (maxResults : Nat) : Except StoreError (List RunEntry) :=
  if maxResults > SEARCH_MAX_RESULTS_THRESHOLD then
    .error ⟨.INVALID_PARAMETER_VALUE,
      "Invalid value for request parameter max_results. It must be at most " ++
        toString SEARCH_MAX_RESULTS_THRESHOLD⟩
  else
    .ok ((sortRuns ((candidateRuns s eids vt).filter (fun x => matchesFilter x f))).take
      maxResults)

/-- Fold `log_metric` over a list of samples for one key. -/
def logMetrics (s : FileStore) (rid key : String) :
    List MetricSample → Except StoreError FileStore
  | [] => .ok s
  | x :: t =>
    match logMetric s rid key x with
    | .ok s1 => logMetrics s1 rid key t
    | .error e => .error e

/-- Fold `log_param` over a request list. -/
def logParams (s : FileStore) (rid : String) :
    List (String × String) → Except StoreError FileStore
  | [] => .ok s
  | kv :: t =>
    match logParam s rid kv.1 kv.2 with
    | .ok s1 => logParams s1 rid t
    | .error e => .error e

/-- Fold `set_tag` over a request list. -/
def setTags (s : FileStore) (rid : String) :
    List (String × String) → Except StoreError FileStore
  | [] => .ok s
  | kv :: t =>
    match setTag s rid kv.1 kv.2 with
    | .ok s1 => setTags s1 rid t
    | .error e => .error e

/-- Fold `log_metric` over the metric requests of a batch (key plus sample). -/
def logMetricsKV (s : FileStore) (rid : String) :
    List (String × MetricSample) → Except StoreError FileStore
  | [] => .ok s
  | km :: t =>
    match logMetric s rid km.1 km.2 with
    | .ok s1 => logMetricsKV s1 rid t
    | .error e => .error e

/-- Apply the three collections of a batch: metrics, then params, then tags. -/
def applyBatch (s : FileStore) (rid : String) (metrics : List (String × MetricSample))
    (params tags : List (String × String)) : Except StoreError FileStore :=
  match logMetricsKV s rid metrics with
  | .error e => .error e
  | .ok s1 =>
    match logParams s1 rid params with
    | .error e => .error e
    | .ok s2 => setTags s2 rid tags

/-- Modelled from the spec: `log_batch` (spec section 4.3) — a nonexistent
run fails with `RESOURCE_DOES_NOT_EXIST`; any individual metric/param/tag
failure is wrapped and surfaced as one operation-level `INTERNAL_ERROR`
carrying the original message. -/
def logBatch (s : FileStore) (rid : String) (metrics : List (String × MetricSample))
    (params tags : List (String × String)) : Except StoreError FileStore :=
  match resolveRun s rid with
  | .error e => .error e
  | .ok _ =>
    match applyBatch s rid metrics params tags with
    | .ok s1 => .ok s1
    | .error e => .error ⟨.INTERNAL_ERROR, e.message⟩

/-- Split a character list at every path separator. -/
def splitOnSlash : List Char → List (List Char)
  | [] => [[]]
  | c :: t =>
    if c = '/' then [] :: splitOnSlash t
    else
      match splitOnSlash t with
      | [] => [[c]]
      | s :: rs => (c :: s) :: rs

/-- Split a path string into `/`-separated segments (the semantics of
Python `str.split`: an empty string yields one empty segment). -/
def segmentsOf (p : String) : List String :=
  (splitOnSlash p.toList).map List.asString

/-- Whether a path string is absolute (starts with the separator). -/
def isAbsolutePath (p : String) : Bool :=
  match p.toList with
  | [] => false
  | c :: _ => c = '/' 

/-- Modelled from the spec: `mlflow.utils.validation.path_not_unique` (spec
section 6, not in this snapshot): a destination path is invalid when it is
absolute, contains a `..` segment, or collapses to the repository root
itself. -/
def path_not_unique (p : String) : Bool :=
  isAbsolutePath p || (segmentsOf p).contains ".." ||
    (segmentsOf p).all (fun seg => seg == "" || seg == ".")

/-- A node of the local artifact directory tree: a file with a byte size, or
a directory with named entries. -/
inductive FsNode where
  | file (size : Nat)
  | dir (entries : List (String × FsNode))

/-- Resolve a segment path inside a tree. -/
def resolveNode : FsNode → List String → Option FsNode
  | node, [] => some node
  | .file _, _ :: _ => none
  | .dir es, seg :: rest =>
    match alookup seg es with
    | some child => resolveNode child rest
    | none => none

/-- Place a file under a segment path, creating intermediate directories
(the `mkdir` + `shutil.copy` tail of `log_artifact`). -/
def insertFileAt (node : FsNode) : List String → String → Nat → FsNode
  | [], name, sz =>
    match node with
    | .dir es => .dir (upsert name (.file sz) es)
    | .file s0 => .file s0
  | seg :: rest, name, sz =>
    match node with
    | .dir es =>
      match alookup seg es with
      | some child => .dir (upsert seg (insertFileAt child rest name sz) es)
      | none => .dir (es ++ [(seg, insertFileAt (.dir []) rest name sz)])
    | .file s0 => .file s0

mutual

/-- Merge a source tree into a destination tree, files overwriting and
directories merging (the `dir_util.copy_tree` tail of `log_artifacts`). -/
def mergeTree (dst src : FsNode) : FsNode :=
  match dst, src with
  | .dir des, .dir ses => .dir (mergeEntries des ses)
  | _, other => other

/-- Merge each source entry into the destination entry list in order. -/
def mergeEntries (des : List (String × FsNode)) :
    List (String × FsNode) → List (String × FsNode)
  | [] => des
  | (n, child) :: rest =>
    match alookup n des with
    | some old => mergeEntries (upsert n (mergeTree old child) des) rest
    | none => mergeEntries (des ++ [(n, child)]) rest

end

/-- Place a whole tree under a segment path, creating intermediate
directories and merging with what is already there. -/
def insertTreeAt (node : FsNode) : List String → FsNode → FsNode
  | [], src =>
    mergeTree node src
  | seg :: rest, src =>
    match node with
    | .dir es =>
      match alookup seg es with
      | some child => .dir (upsert seg (insertTreeAt child rest src) es)
      | none => .dir (es ++ [(seg, insertTreeAt (.dir []) rest src)])
    | .file s0 => .file s0

/-- The destination segments of an optional artifact path: the repository
root when the path is `None` or empty (Python truthiness), its segments
otherwise. -/
def destSegments (artifact_path : Option String) : List String :=
  match artifact_path with
  | none => []
  | some p => if p = "" then [] else segmentsOf p

/-- `LocalArtifactRepository.log_artifact` (src/mlflow/store/local_artifact_repo.py,
lines 29-38): validate the artifact path before any copy, then copy the local
file (here: its base name and size) into the destination directory. -/
def log_artifact (root : FsNode) (baseName : String) (size : Nat)
    (artifact_path : Option String) : Except String FsNode :=
  match artifact_path with
  | some p =>
    if p ≠ "" && path_not_unique p then
      .error ("Invalid artifact path: " ++ p)
    else .ok (insertFileAt root (destSegments artifact_path) baseName size)
  | none => .ok (insertFileAt root [] baseName size)

/-- `LocalArtifactRepository.log_artifacts` (src/mlflow/store/local_artifact_repo.py,
lines 40-48): same validation, then copy a whole local tree into the
destination directory. -/
def log_artifacts (root : FsNode) (localTree : FsNode)
    (artifact_path : Option String) : Except String FsNode :=
  match artifact_path with
  | some p =>
    if p ≠ "" && path_not_unique p then
      .error ("Invalid artifact path: " ++ p)
    else .ok (insertTreeAt root (destSegments artifact_path) localTree)
  | none => .ok (insertTreeAt root [] localTree)

/-- One listing entry: relative path, directory flag, file size (`None` for
directories), as produced by `get_file_info`. -/
structure FileInfo where
  path : String
  is_dir : Bool
  file_size : Option Nat
deriving DecidableEq, Repr

/-- The listing entry of one directory member. -/
def entryInfo (relPrefix : String) (e : String × FsNode) : FileInfo :=
  let rel := if relPrefix = "" then e.1 else relPrefix ++ "/" ++ e.1
  match e.2 with
  | .file sz => ⟨rel, false, some sz⟩
  | .dir _ => ⟨rel, true, none⟩

/-- Ordering of listing entries by their `path` field. -/
def fileInfoOrd (a b : FileInfo) : Prop :=
  a.path ≤ b.path

instance : DecidableRel fileInfoOrd :=
  fun a b => inferInstanceAs (Decidable (a.path ≤ b.path))

instance : IsTotal FileInfo fileInfoOrd :=
  ⟨fun a b => le_total a.path b.path⟩

instance : IsTrans FileInfo fileInfoOrd :=
  ⟨fun _ _ _ h1 h2 => le_trans h1 h2⟩

/-- `LocalArtifactRepository.list_artifacts` (src/mlflow/store/local_artifact_repo.py,
lines 50-58): when the resolved path is a directory, return its entries as
file infos (relative paths) sorted by path; otherwise return the empty
list.  The relative prefix of the returned paths. -/
def relPrefixOf (path : Option String) : String :=
  match path with
  | none => ""
  | some p => p

/-- `LocalArtifactRepository.list_artifacts` body, continued: the listing of
the resolved directory, sorted by relative path. -/
def list_artifacts (root : FsNode) (path : Option String) : List FileInfo :=
  match resolveNode root (destSegments path) with
  | some (.dir es) =>
    List.insertionSort fileInfoOrd (es.map (entryInfo (relPrefixOf path)))
  | _ => []

theorem findRunIn_map (rid : String) (f : RunDir → RunDir)
    (hf : ∀ r, (f r).dirName = r.dirName) (l : List RunDir) :
    findRunIn rid (l.map (fun r => if r.dirName = rid then f r else r)) =
      (findRunIn rid l).map f := by
  induction l with
  | nil => simp [findRunIn]
  | cons r t ih =>
    by_cases h1 : r.dirName = rid
    · simp [findRunIn, h1, hf r]
    · simp [findRunIn, h1, ih]

theorem findRunDir_map (rid : String) (f : RunDir → RunDir)
    (hf : ∀ r, (f r).dirName = r.dirName) (root : List ExpDir) :
    findRunDir rid (root.map (mapRunsOf rid f)) =
      (findRunDir rid root).map (fun p => (mapRunsOf rid f p.1, f p.2)) := by
  induction root with
  | nil => simp [findRunDir]
  | cons e t ih =>
    simp only [List.map_cons, findRunDir]
    have hruns : findRunIn rid (mapRunsOf rid f e).runs = (findRunIn rid e.runs).map f := by
      simpa [mapRunsOf] using findRunIn_map rid f hf e.runs
    cases h : findRunIn rid e.runs with
    | some r => simp [hruns, h]
    | none => simp [hruns, h, ih]

theorem resolveRun_ok_inv {s : FileStore} {rid : String} {e : ExpDir} {r : RunDir}
    {m : RunMeta} (h : resolveRun s rid = .ok (e, r, m)) :
    findRunDir rid s.root = some (e, r) ∧ r.meta = some m ∧ m.experimentId = e.dirName := by
  unfold resolveRun at h
  split at h
  · exact absurd h (by simp)
  · rename_i e0 r0 hfind
    split at h
    · exact absurd h (by simp)
    · rename_i m0 hmeta
      split at h
      · rename_i hid
        have h2 : e0 = e ∧ r0 = r ∧ m0 = m := by simpa using h
        obtain ⟨he, hr, hm⟩ := h2
        subst he; subst hr; subst hm
        exact ⟨hfind, hmeta, hid⟩
      · exact absurd h (by simp)

theorem mapRunsOf_dirName (rid : String) (f : RunDir → RunDir) (e : ExpDir) :
    (mapRunsOf rid f e).dirName = e.dirName := rfl

theorem resolveRun_updateRun {s : FileStore} {rid : String} {e : ExpDir} {r : RunDir}
    {m : RunMeta} (f : RunDir → RunDir) (hf : ∀ x, (f x).dirName = x.dirName)
    (h : resolveRun s rid = .ok (e, r, m)) :
    resolveRun (updateRun s rid f) rid =
      (match (f r).meta with
       | none => .error ⟨.MISSING_CONFIG, "Run " ++ rid ++ " metadata does not exist"⟩
       | some m1 =>
         if m1.experimentId = e.dirName then .ok (mapRunsOf rid f e, f r, m1)
         else .error ⟨.ID_MISMATCH, "Run " ++ rid ++ " metadata is in invalid state"⟩) := by
  obtain ⟨hfind, _, _⟩ := resolveRun_ok_inv h
  unfold resolveRun updateRun
  rw [findRunDir_map rid f hf s.root, hfind]
  rfl

theorem resolveRun_update_data {s : FileStore} {rid : String} {e : ExpDir} {r : RunDir}
    {m : RunMeta} (f : RunDir → RunDir) (hf : ∀ x, (f x).dirName = x.dirName)
    (hmeta : ∀ x, (f x).meta = x.meta) (h : resolveRun s rid = .ok (e, r, m)) :
    resolveRun (updateRun s rid f) rid = .ok (mapRunsOf rid f e, f r, m) := by
  obtain ⟨_, hrm, hid⟩ := resolveRun_ok_inv h
  rw [resolveRun_updateRun f hf h, hmeta r, hrm]
  simp [hid]

theorem mutateRun_ok {s : FileStore} {rid : String} {e : ExpDir} {r : RunDir}
    {m : RunMeta} (f : RunDir → RunDir) (h : resolveRun s rid = .ok (e, r, m))
    (ha : m.lifecycleStage = .active) :
    mutateRun s rid f = .ok (updateRun s rid f) := by
  unfold mutateRun
  rw [h]
  simp [ha]

theorem mutateRun_notActive {s : FileStore} {rid : String} {e : ExpDir} {r : RunDir}
    {m : RunMeta} (f : RunDir → RunDir) (h : resolveRun s rid = .ok (e, r, m))
    (ha : m.lifecycleStage ≠ .active) :
    mutateRun s rid f = .error (notActiveError rid) := by
  unfold mutateRun
  rw [h]
  simp [ha]

theorem logParams_ok {s : FileStore} {rid : String} {e : ExpDir} {r : RunDir}
    {m : RunMeta} (h : resolveRun s rid = .ok (e, r, m))
    (ha : m.lifecycleStage = .active) (P : List (String × String)) :
    ∃ s1 e1 r1, logParams s rid P = .ok s1 ∧ resolveRun s1 rid = .ok (e1, r1, m) ∧
      r1.params = upsertAll r.params P ∧ r1.tags = r.tags ∧ r1.metrics = r.metrics := by
  induction P generalizing s e r with
  | nil => exact ⟨s, e, r, rfl, h, rfl, rfl, rfl⟩
  | cons kv t ih =>
    obtain ⟨k, v⟩ := kv
    have hstep : logParam s rid k v =
        .ok (updateRun s rid (fun x => { x with params := upsert k v x.params })) :=
      mutateRun_ok _ h ha
    have hres : resolveRun (updateRun s rid
        (fun x => { x with params := upsert k v x.params })) rid =
        .ok (mapRunsOf rid (fun x => { x with params := upsert k v x.params }) e,
          { r with params := upsert k v r.params }, m) :=
      resolveRun_update_data _ (fun _ => rfl) (fun _ => rfl) h
    obtain ⟨s1, e1, r1, hok, hres1, hp, ht, hm⟩ := ih hres
    refine ⟨s1, e1, r1, ?_, hres1, ?_, ht, hm⟩
    · simp only [logParams, hstep]
      exact hok
    · simpa [upsertAll] using hp

theorem setTags_ok {s : FileStore} {rid : String} {e : ExpDir} {r : RunDir}
    {m : RunMeta} (h : resolveRun s rid = .ok (e, r, m))
    (ha : m.lifecycleStage = .active) (T : List (String × String)) :
    ∃ s1 e1 r1, setTags s rid T = .ok s1 ∧ resolveRun s1 rid = .ok (e1, r1, m) ∧
      r1.tags = upsertAll r.tags T ∧ r1.params = r.params ∧ r1.metrics = r.metrics := by
  induction T generalizing s e r with
  | nil => exact ⟨s, e, r, rfl, h, rfl, rfl, rfl⟩
  | cons kv t ih =>
    obtain ⟨k, v⟩ := kv
    have hstep : setTag s rid k v =
        .ok (updateRun s rid (fun x => { x with tags := upsert k v x.tags })) :=
      mutateRun_ok _ h ha
    have hres : resolveRun (updateRun s rid
        (fun x => { x with tags := upsert k v x.tags })) rid =
        .ok (mapRunsOf rid (fun x => { x with tags := upsert k v x.tags }) e,
          { r with tags := upsert k v r.tags }, m) :=
      resolveRun_update_data _ (fun _ => rfl) (fun _ => rfl) h
    obtain ⟨s1, e1, r1, hok, hres1, ht, hp, hm⟩ := ih hres
    refine ⟨s1, e1, r1, ?_, hres1, ?_, hp, hm⟩
    · simp only [setTags, hstep]
      exact hok
    · simpa [upsertAll] using ht

theorem logMetrics_ok {s : FileStore} {rid key : String} {e : ExpDir} {r : RunDir}
    {m : RunMeta} (h : resolveRun s rid = .ok (e, r, m))
    (ha : m.lifecycleStage = .active) (l : List MetricSample) :
    ∃ s1 e1 r1, logMetrics s rid key l = .ok s1 ∧ resolveRun s1 rid = .ok (e1, r1, m) ∧
      r1.metrics = l.foldl (fun acc x => appendMetric key x acc) r.metrics ∧
      r1.params = r.params ∧ r1.tags = r.tags := by
  induction l generalizing s e r with
  | nil => exact ⟨s, e, r, rfl, h, rfl, rfl, rfl⟩
  | cons x t ih =>
    have hstep : logMetric s rid key x =
        .ok (updateRun s rid (fun y => { y with metrics := appendMetric key x y.metrics })) :=
      mutateRun_ok _ h ha
    have hres : resolveRun (updateRun s rid
        (fun y => { y with metrics := appendMetric key x y.metrics })) rid =
        .ok (mapRunsOf rid (fun y => { y with metrics := appendMetric key x y.metrics }) e,
          { r with metrics := appendMetric key x r.metrics }, m) :=
      resolveRun_update_data _ (fun _ => rfl) (fun _ => rfl) h
    obtain ⟨s1, e1, r1, hok, hres1, hm1, hp, ht⟩ := ih hres
    refine ⟨s1, e1, r1, ?_, hres1, ?_, hp, ht⟩
    · simp only [logMetrics, hstep]
      exact hok
    · simpa using hm1

theorem logMetricsKV_ok {s : FileStore} {rid : String} {e : ExpDir} {r : RunDir}
    {m : RunMeta} (h : resolveRun s rid = .ok (e, r, m))
    (ha : m.lifecycleStage = .active) (l : List (String × MetricSample)) :
    ∃ s1 e1 r1, logMetricsKV s rid l = .ok s1 ∧ resolveRun s1 rid = .ok (e1, r1, m) ∧
      r1.metrics = l.foldl (fun acc km => appendMetric km.1 km.2 acc) r.metrics ∧
      r1.params = r.params ∧ r1.tags = r.tags := by
  induction l generalizing s e r with
  | nil => exact ⟨s, e, r, rfl, h, rfl, rfl, rfl⟩
  | cons km t ih =>
    have hstep : logMetric s rid km.1 km.2 =
        .ok (updateRun s rid
          (fun y => { y with metrics := appendMetric km.1 km.2 y.metrics })) :=
      mutateRun_ok _ h ha
    have hres : resolveRun (updateRun s rid
        (fun y => { y with metrics := appendMetric km.1 km.2 y.metrics })) rid =
        .ok (mapRunsOf rid
          (fun y => { y with metrics := appendMetric km.1 km.2 y.metrics }) e,
          { r with metrics := appendMetric km.1 km.2 r.metrics }, m) :=
      resolveRun_update_data _ (fun _ => rfl) (fun _ => rfl) h
    obtain ⟨s1, e1, r1, hok, hres1, hm1, hp, ht⟩ := ih hres
    refine ⟨s1, e1, r1, ?_, hres1, ?_, hp, ht⟩
    · simp only [logMetricsKV, hstep]
      exact hok
    · simpa using hm1

theorem setRunLifecycle_ok {s : FileStore} {rid : String} {e : ExpDir} {r : RunDir}
    {m : RunMeta} (h : resolveRun s rid = .ok (e, r, m)) (st : LifecycleStage) :
    ∃ s1 e1, setRunLifecycle s rid st = .ok s1 ∧
      resolveRun s1 rid = .ok (e1,
        { r with meta := some { m with lifecycleStage := st } },
        { m with lifecycleStage := st }) := by
  obtain ⟨hfind, hrm, hid⟩ := resolveRun_ok_inv h
  have hres := resolveRun_updateRun
    (fun y : RunDir =>
      { y with meta := y.meta.map (fun m0 : RunMeta => { m0 with lifecycleStage := st }) })
    (fun _ => rfl) h
  simp only [hrm, Option.map_some', hid] at hres
  simp only [if_pos] at hres
  refine ⟨updateRun s rid
      (fun y : RunDir =>
        { y with meta := y.meta.map (fun m0 : RunMeta => { m0 with lifecycleStage := st }) }),
    mapRunsOf rid
      (fun y : RunDir =>
        { y with meta := y.meta.map (fun m0 : RunMeta => { m0 with lifecycleStage := st }) }) e,
    ?_, ?_⟩
  · unfold setRunLifecycle
    rw [h]
  · simpa [hid] using hres

theorem getRun_of_resolve {s : FileStore} {rid : String} {e : ExpDir} {r : RunDir}
    {m : RunMeta} (h : resolveRun s rid = .ok (e, r, m)) :
    getRun s rid = .ok ⟨m, ⟨r.params, r.tags,
      r.metrics.filterMap (fun kl => (currentSample kl.2).map (fun c => (kl.1, c)))⟩⟩ := by
  unfold getRun
  rw [h]

theorem alookup_appendMetric (k k0 : String) (x : MetricSample)
    (ms : List (String × List MetricSample)) :
    alookup k (appendMetric k0 x ms) =
      if k0 = k then some ((alookup k ms).getD [] ++ [x]) else alookup k ms := by
  induction ms with
  | nil =>
    by_cases h : k0 = k <;> simp [appendMetric, alookup, h]
  | cons hd t ih =>
    obtain ⟨k1, l1⟩ := hd
    by_cases h1 : k1 = k0
    · subst h1
      by_cases h2 : k1 = k
      · subst h2
        simp [appendMetric, alookup]
      · simp [appendMetric, alookup, h2]
    · by_cases h2 : k1 = k
      · subst h2
        have h3 : ¬ k0 = k1 := fun hh => h1 hh.symm
        simp [appendMetric, alookup, h1, h3]
      · simp [appendMetric, alookup, h1, h2, ih]

theorem alookup_foldl_appendMetric_getD (key : String) (l : List MetricSample)
    (ms : List (String × List MetricSample)) :
    (alookup key (l.foldl (fun acc x => appendMetric key x acc) ms)).getD [] =
      (alookup key ms).getD [] ++ l := by
  induction l generalizing ms with
  | nil => simp
  | cons x t ih =>
    simp only [List.foldl_cons]
    rw [ih]
    simp [alookup_appendMetric]

theorem alookup_foldl_appendMetric_isSome (key : String) (l : List MetricSample)
    (ms : List (String × List MetricSample)) (hl : l ≠ []) :
    ∃ v, alookup key (l.foldl (fun acc x => appendMetric key x acc) ms) = some v := by
  induction l generalizing ms with
  | nil => exact absurd rfl hl
  | cons x t ih =>
    simp only [List.foldl_cons]
    by_cases ht : t = []
    · subst ht
      simp [alookup_appendMetric]
    · exact ih _ ht

theorem alookup_foldl_appendMetric (key : String) (l : List MetricSample)
    (ms : List (String × List MetricSample)) (hl : l ≠ []) :
    alookup key (l.foldl (fun acc x => appendMetric key x acc) ms) =
      some ((alookup key ms).getD [] ++ l) := by
  obtain ⟨v, hv⟩ := alookup_foldl_appendMetric_isSome key l ms hl
  have := alookup_foldl_appendMetric_getD key l ms
  rw [hv] at this ⊢
  simp only [Option.getD_some] at this
  rw [this]

theorem foldl_maxSample_mem (a : MetricSample) (t : List MetricSample) :
    t.foldl (fun b x => if sampleKey b ≤ sampleKey x then x else b) a ∈ a :: t := by
  induction t generalizing a with
  | nil => simp
  | cons x t ih =>
    simp only [List.foldl_cons]
    by_cases h : sampleKey a ≤ sampleKey x
    · have := ih x
      simp only [if_pos h]
      rcases List.mem_cons.mp (ih x) with h1 | h1
      · simp [h1]
      · simp [h1]
    · simp only [if_neg h]
      rcases List.mem_cons.mp (ih a) with h1 | h1
      · simp [h1]
      · simp [h1]

theorem foldl_maxSample_le (a : MetricSample) (t : List MetricSample) :
    ∀ y ∈ a :: t,
      sampleKey y ≤ sampleKey (t.foldl (fun b x => if sampleKey b ≤ sampleKey x then x else b) a) := by
  induction t generalizing a with
  | nil =>
    intro y hy
    simp at hy
    simp [hy]
  | cons x t ih =>
    intro y hy
    simp only [List.foldl_cons]
    have hab : sampleKey a ≤ sampleKey (if sampleKey a ≤ sampleKey x then x else a) := by
      by_cases h : sampleKey a ≤ sampleKey x <;> simp [h]
    have hxb : sampleKey x ≤ sampleKey (if sampleKey a ≤ sampleKey x then x else a) := by
      by_cases h : sampleKey a ≤ sampleKey x
      · simp [h]
      · simp only [if_neg h]
        exact le_of_not_le h
    have hb := ih (if sampleKey a ≤ sampleKey x then x else a)
    rcases List.mem_cons.mp hy with h1 | h1
    · subst h1
      exact le_trans hab (hb _ (List.mem_cons_self _ _))
    · rcases List.mem_cons.mp h1 with h2 | h2
      · subst h2
        exact le_trans hxb (hb _ (List.mem_cons_self _ _))
      · exact hb y (List.mem_cons_of_mem _ h2)

theorem currentSample_mem {l : List MetricSample} {c : MetricSample}
    (h : currentSample l = some c) : c ∈ l := by
  cases l with
  | nil => simp [currentSample] at h
  | cons a t =>
    simp only [currentSample, Option.some.injEq] at h
    rw [← h]
    exact foldl_maxSample_mem a t

theorem currentSample_le {l : List MetricSample} {c : MetricSample}
    (h : currentSample l = some c) : ∀ y ∈ l, sampleKey y ≤ sampleKey c := by
  cases l with
  | nil => simp [currentSample] at h
  | cons a t =>
    simp only [currentSample, Option.some.injEq] at h
    rw [← h]
    exact foldl_maxSample_le a t

theorem currentSample_isSome {l : List MetricSample} (h : l ≠ []) :
    ∃ c, currentSample l = some c := by
  cases l with
  | nil => exact absurd rfl h
  | cons a t => exact ⟨_, rfl⟩

theorem currentSample_perm {l l1 : List MetricSample} (h : l.Perm l1) :
    currentSample l = currentSample l1 := by
  cases hl : l with
  | nil =>
    subst hl
    have : l1 = [] := h.nil_eq.symm
    rw [this]
  | cons a t =>
    subst hl
    have h1 : l1 ≠ [] := by
      intro hn
      subst hn
      exact absurd h.symm.nil_eq (by simp)
    obtain ⟨c, hc⟩ := currentSample_isSome (l := a :: t) (by simp)
    obtain ⟨c1, hc1⟩ := currentSample_isSome h1
    have hmem : c ∈ l1 := h.mem_iff.mp (currentSample_mem hc)
    have hmem1 : c1 ∈ a :: t := h.mem_iff.mpr (currentSample_mem hc1)
    have hle : sampleKey c ≤ sampleKey c1 := currentSample_le hc1 c hmem
    have hge : sampleKey c1 ≤ sampleKey c := currentSample_le hc c1 hmem1
    have : c = c1 := sampleKey_inj (le_antisymm hle hge)
    rw [hc, hc1, this]

theorem alookup_filterMap_current {key : String} {ms : List (String × List MetricSample)}
    {l : List MetricSample} {c : MetricSample} (h : alookup key ms = some l)
    (hc : currentSample l = some c) :
    alookup key
      (ms.filterMap (fun kl => (currentSample kl.2).map (fun d => (kl.1, d)))) = some c := by
  induction ms with
  | nil => simp [alookup] at h
  | cons hd t ih =>
    obtain ⟨k1, l1⟩ := hd
    by_cases h1 : k1 = key
    · subst h1
      have h2 : l1 = l := by simpa [alookup] using h
      subst h2
      simp [List.filterMap_cons, hc, alookup]
    · simp only [alookup, if_neg h1] at h
      cases hcur : currentSample l1 with
      | none => simp [List.filterMap_cons, hcur, ih h]
      | some d => simp [List.filterMap_cons, hcur, alookup, h1, ih h]

/-- C1: for every run and metric key, the metric value reported by `get_run`
is the logged sample that is maximal under the lexicographic ordering
(step, timestamp, value), independent of the order in which the samples were
logged (out-of-order and negative steps included), while `get_metric_history`
returns every logged sample, duplicates included. -/
theorem claim_C1_metric_current_value
    (s : FileStore) (rid key : String) (e : ExpDir) (r : RunDir) (m : RunMeta)
    (hres : resolveRun s rid = .ok (e, r, m))
    (ha : m.lifecycleStage = .active)
    (hfresh : alookup key r.metrics = none)
    (l : List MetricSample) (hl : l ≠ []) :
    ∃ s1 c, logMetrics s rid key l = .ok s1 ∧
      getMetricHistory s1 rid key = .ok l ∧
      (∃ run, getRun s1 rid = .ok run ∧ alookup key run.data.metrics = some c) ∧
      c ∈ l ∧ (∀ y ∈ l, sampleKey y ≤ sampleKey c) ∧
      (∀ l1, l.Perm l1 → ∃ s2 run2, logMetrics s rid key l1 = .ok s2 ∧
        getRun s2 rid = .ok run2 ∧ alookup key run2.data.metrics = some c) := by
  obtain ⟨s1, e1, r1, hok, hres1, hm1, hp1, ht1⟩ := logMetrics_ok hres ha l
  have hlog : alookup key r1.metrics = some l := by
    rw [hm1, alookup_foldl_appendMetric key l r.metrics hl, hfresh]
    simp
  obtain ⟨c, hc⟩ := currentSample_isSome hl
  refine ⟨s1, c, hok, ?_, ?_, currentSample_mem hc, currentSample_le hc, ?_⟩
  · unfold getMetricHistory
    rw [hres1]
    simp [hlog]
  · refine ⟨_, getRun_of_resolve hres1, ?_⟩
    exact alookup_filterMap_current hlog hc
  · intro l1 hperm
    have hl1 : l1 ≠ [] := by
      intro hn
      subst hn
      exact hl hperm.symm.nil_eq.symm
    obtain ⟨s2, e2, r2, hok2, hres2, hm2, _, _⟩ := logMetrics_ok hres ha l1
    have hlog2 : alookup key r2.metrics = some l1 := by
      rw [hm2, alookup_foldl_appendMetric key l1 r.metrics hl1, hfresh]
      simp
    have hc1 : currentSample l1 = some c := by
      rw [← currentSample_perm hperm, hc]
    refine ⟨s2, _, hok2, getRun_of_resolve hres2, ?_⟩
    exact alookup_filterMap_current hlog2 hc1

/-- Concrete run metadata used by the witnesses. -/
def wMeta : RunMeta := ⟨"r1", 0, 5, .active⟩

/-- Concrete run directory used by the witnesses. -/
def wRun : RunDir := ⟨"r1", some wMeta, [], [], []⟩

/-- Concrete experiment directory used by the witnesses. -/
def wExp : ExpDir := ⟨0, some ⟨0, "Default", .active⟩, [wRun]⟩

/-- Concrete store used by the witnesses. -/
def wStore : FileStore := ⟨[wExp]⟩

/-- Concrete samples: the (step, timestamp, value) triples (3, 40, 100),
(-3, 900, 900) and (3, 50, 20) of the spec scenario. -/
def wSamples : List MetricSample := [⟨40, 3, 100⟩, ⟨900, -3, 900⟩, ⟨50, 3, 20⟩]

/-- Witness of C1 at a concrete store, run and sample list. -/
theorem claim_C1_witness :
    ∃ s1 c, logMetrics wStore "r1" "m" wSamples = .ok s1 ∧
      getMetricHistory s1 "r1" "m" = .ok wSamples ∧
      (∃ run, getRun s1 "r1" = .ok run ∧ alookup "m" run.data.metrics = some c) ∧
      c ∈ wSamples ∧ (∀ y ∈ wSamples, sampleKey y ≤ sampleKey c) ∧
      (∀ l1, wSamples.Perm l1 → ∃ s2 run2, logMetrics wStore "r1" "m" l1 = .ok s2 ∧
        getRun s2 "r1" = .ok run2 ∧ alookup "m" run2.data.metrics = some c) :=
  claim_C1_metric_current_value wStore "r1" "m" wExp wRun wMeta rfl rfl rfl
    wSamples (by decide)

/-- C4: for every run, after `delete_run` the run is still fully readable via
`get_run` (same params, tags and metric current values, lifecycle stage
deleted) while `log_param`, `log_metric` and `set_tag` each fail; after
`restore_run` the lifecycle stage is active again and those mutations
succeed — a deleted run's stored data is never mutated. -/
theorem claim_C4_deleted_run_readable_immutable
    (s : FileStore) (rid : String) (e : ExpDir) (r : RunDir) (m : RunMeta)
    (hres : resolveRun s rid = .ok (e, r, m)) :
    ∃ s1, deleteRun s rid = .ok s1 ∧
      getRun s1 rid = .ok ⟨{ m with lifecycleStage := .deleted },
        ⟨r.params, r.tags, r.metrics.filterMap
          (fun kl => (currentSample kl.2).map (fun c => (kl.1, c)))⟩⟩ ∧
      (∀ k v, logParam s1 rid k v = .error (notActiveError rid)) ∧
      (∀ k v, setTag s1 rid k v = .error (notActiveError rid)) ∧
      (∀ key x, logMetric s1 rid key x = .error (notActiveError rid)) ∧
      ∃ s2, restoreRun s1 rid = .ok s2 ∧
        getRun s2 rid = .ok ⟨{ m with lifecycleStage := .active },
          ⟨r.params, r.tags, r.metrics.filterMap
            (fun kl => (currentSample kl.2).map (fun c => (kl.1, c)))⟩⟩ ∧
        (∀ k v, ∃ s3, logParam s2 rid k v = .ok s3) ∧
        (∀ k v, ∃ s3, setTag s2 rid k v = .ok s3) ∧
        (∀ key x, ∃ s3, logMetric s2 rid key x = .ok s3) := by
  obtain ⟨s1, e1, hdel, hres1⟩ := setRunLifecycle_ok hres .deleted
  obtain ⟨s2, e2, hrest, hres2⟩ := setRunLifecycle_ok hres1 .active
  refine ⟨s1, hdel, ?_, ?_, ?_, ?_, s2, hrest, ?_, ?_, ?_, ?_⟩
  · have hget := getRun_of_resolve hres1
    exact hget
  · intro k v
    exact mutateRun_notActive _ hres1 (by simp)
  · intro k v
    exact mutateRun_notActive _ hres1 (by simp)
  · intro key x
    exact mutateRun_notActive _ hres1 (by simp)
  · have hget := getRun_of_resolve hres2
    exact hget
  · intro k v
    exact ⟨_, mutateRun_ok _ hres2 rfl⟩
  · intro k v
    exact ⟨_, mutateRun_ok _ hres2 rfl⟩
  · intro key x
    exact ⟨_, mutateRun_ok _ hres2 rfl⟩

/-- Witness of C4 at a concrete store and run. -/
theorem claim_C4_witness :
    ∃ s1, deleteRun wStore "r1" = .ok s1 ∧
      getRun s1 "r1" = .ok ⟨{ wMeta with lifecycleStage := .deleted },
        ⟨wRun.params, wRun.tags, wRun.metrics.filterMap
          (fun kl => (currentSample kl.2).map (fun c => (kl.1, c)))⟩⟩ ∧
      (∀ k v, logParam s1 "r1" k v = .error (notActiveError "r1")) ∧
      (∀ k v, setTag s1 "r1" k v = .error (notActiveError "r1")) ∧
      (∀ key x, logMetric s1 "r1" key x = .error (notActiveError "r1")) ∧
      ∃ s2, restoreRun s1 "r1" = .ok s2 ∧
        getRun s2 "r1" = .ok ⟨{ wMeta with lifecycleStage := .active },
          ⟨wRun.params, wRun.tags, wRun.metrics.filterMap
            (fun kl => (currentSample kl.2).map (fun c => (kl.1, c)))⟩⟩ ∧
        (∀ k v, ∃ s3, logParam s2 "r1" k v = .ok s3) ∧
        (∀ k v, ∃ s3, setTag s2 "r1" k v = .ok s3) ∧
        (∀ key x, ∃ s3, logMetric s2 "r1" key x = .ok s3) :=
  claim_C4_deleted_run_readable_immutable wStore "r1" wExp wRun wMeta rfl

/-- C5: `log_batch` on a nonexistent run id fails with
`RESOURCE_DOES_NOT_EXIST` and the message contains the run id, while on an
existing run any individual metric/param/tag write failure is surfaced as a
single operation-level `INTERNAL_ERROR` carrying the original message (shown
both in general and concretely on a deleted run, for each of the three
request kinds). -/
theorem claim_C5_log_batch_error_codes
    (s : FileStore) (rid : String) (M : List (String × MetricSample))
    (P T : List (String × String)) :
    (findRunDir rid s.root = none →
      logBatch s rid M P T =
        .error ⟨.RESOURCE_DOES_NOT_EXIST, "Run " ++ rid ++ " not found"⟩ ∧
      ∃ pre suf, "Run " ++ rid ++ " not found" = pre ++ (rid ++ suf)) ∧
    (∀ e r m, resolveRun s rid = .ok (e, r, m) →
      (∀ err, applyBatch s rid M P T = .error err →
        logBatch s rid M P T = .error ⟨.INTERNAL_ERROR, err.message⟩) ∧
      (m.lifecycleStage = .deleted →
        (M ≠ [] →
          logBatch s rid M P T =
            .error ⟨.INTERNAL_ERROR, (notActiveError rid).message⟩) ∧
        (P ≠ [] →
          logBatch s rid [] P T =
            .error ⟨.INTERNAL_ERROR, (notActiveError rid).message⟩) ∧
        (T ≠ [] →
          logBatch s rid [] [] T =
            .error ⟨.INTERNAL_ERROR, (notActiveError rid).message⟩))) := by
  constructor
  · intro hnone
    have hresolve : resolveRun s rid =
        .error ⟨.RESOURCE_DOES_NOT_EXIST, "Run " ++ rid ++ " not found"⟩ := by
      unfold resolveRun
      rw [hnone]
    constructor
    · unfold logBatch
      rw [hresolve]
    · exact ⟨"Run ", " not found", by simp [String.append_assoc]⟩
  · intro e r m hres
    have hna : m.lifecycleStage = .deleted → m.lifecycleStage ≠ .active := by
      intro hd
      rw [hd]
      simp
    constructor
    · intro err herr
      unfold logBatch
      rw [hres]
      simp [herr]
    · intro hdel
      have hwrap : ∀ M1 P1 T1, applyBatch s rid M1 P1 T1 =
          .error (notActiveError rid) →
          logBatch s rid M1 P1 T1 =
            .error ⟨.INTERNAL_ERROR, (notActiveError rid).message⟩ := by
        intro M1 P1 T1 happ
        unfold logBatch
        rw [hres]
        simp [happ]
      refine ⟨?_, ?_, ?_⟩
      · intro hM
        cases M with
        | nil => exact absurd rfl hM
        | cons km t =>
          apply hwrap
          have hlm : logMetric s rid km.1 km.2 = .error (notActiveError rid) :=
            mutateRun_notActive _ hres (hna hdel)
          simp [applyBatch, logMetricsKV, hlm]
      · intro hP
        cases P with
        | nil => exact absurd rfl hP
        | cons kv t =>
          apply hwrap
          have hlp : logParam s rid kv.1 kv.2 = .error (notActiveError rid) :=
            mutateRun_notActive _ hres (hna hdel)
          simp [applyBatch, logMetricsKV, logParams, hlp]
      · intro hT
        cases T with
        | nil => exact absurd rfl hT
        | cons kv t =>
          apply hwrap
          have hst : setTag s rid kv.1 kv.2 = .error (notActiveError rid) :=
            mutateRun_notActive _ hres (hna hdel)
          simp [applyBatch, logMetricsKV, logParams, setTags, hst]

/-- Concrete deleted run directory used by the C5 witness. -/
def wDeletedRun : RunDir := ⟨"r1", some { wMeta with lifecycleStage := .deleted }, [], [], []⟩

/-- Concrete experiment directory holding the deleted run. -/
def wDeletedExp : ExpDir := ⟨0, some ⟨0, "Default", .active⟩, [wDeletedRun]⟩

/-- Concrete store holding the deleted run. -/
def wDeletedStore : FileStore := ⟨[wDeletedExp]⟩

/-- Witness of C5 at a concrete store: a nonexistent run id and a deleted
run. -/
theorem claim_C5_witness :
    (logBatch wStore "ghost" [("m", ⟨1, 0, 2⟩)] [] [] =
      .error ⟨.RESOURCE_DOES_NOT_EXIST, "Run " ++ "ghost" ++ " not found"⟩ ∧
      ∃ pre suf, "Run " ++ "ghost" ++ " not found" = pre ++ ("ghost" ++ suf)) ∧
    (logBatch wDeletedStore "r1" [("m", ⟨1, 0, 2⟩)] [] [] =
      .error ⟨.INTERNAL_ERROR, (notActiveError "r1").message⟩) := by
  refine ⟨?_, ?_⟩
  · exact (claim_C5_log_batch_error_codes wStore "ghost"
      [("m", ⟨1, 0, 2⟩)] [] []).1 rfl
  · exact (((claim_C5_log_batch_error_codes wDeletedStore "r1"
      [("m", ⟨1, 0, 2⟩)] [] []).2 wDeletedExp wDeletedRun
        { wMeta with lifecycleStage := .deleted } rfl).2 rfl).1 (by simp)

/-- C6: `log_batch` is idempotent for params and tags — calling it twice with
the same param list and tag list leaves the same mapping as one call, with
exactly one value per key (no-duplicate-keys preserved) equal to the last
occurrence in the request; duplicate keys within a single request resolve
last-one-wins already after the first call. -/
theorem claim_C6_log_batch_idempotent
    (s : FileStore) (rid : String) (e : ExpDir) (r : RunDir) (m : RunMeta)
    (hres : resolveRun s rid = .ok (e, r, m)) (ha : m.lifecycleStage = .active)
    (P T : List (String × String)) :
    ∃ s1 e1 r1 s2 e2 r2,
      logBatch s rid [] P T = .ok s1 ∧
      logBatch s1 rid [] P T = .ok s2 ∧
      resolveRun s1 rid = .ok (e1, r1, m) ∧
      resolveRun s2 rid = .ok (e2, r2, m) ∧
      (∀ k, alookup k r2.params = alookup k r1.params) ∧
      (∀ k, alookup k r2.tags = alookup k r1.tags) ∧
      (∀ k v, lastVal k P = some v →
        alookup k r1.params = some v ∧ alookup k r2.params = some v) ∧
      (∀ k v, lastVal k T = some v →
        alookup k r1.tags = some v ∧ alookup k r2.tags = some v) ∧
      ((keysOf r.params).Nodup → (keysOf r2.params).Nodup) ∧
      ((keysOf r.tags).Nodup → (keysOf r2.tags).Nodup) := by
  have step : ∀ s0 e0 r0, resolveRun s0 rid = .ok (e0, r0, m) →
      ∃ s3 e3 r3, logBatch s0 rid [] P T = .ok s3 ∧
        resolveRun s3 rid = .ok (e3, r3, m) ∧
        r3.params = upsertAll r0.params P ∧ r3.tags = upsertAll r0.tags T := by
    intro s0 e0 r0 h0
    obtain ⟨sP, eP, rP, hokP, hresP, hpP, htP, _⟩ := logParams_ok h0 ha P
    obtain ⟨s3, e3, r3, hokT, hresT, ht3, hp3, _⟩ := setTags_ok hresP ha T
    refine ⟨s3, e3, r3, ?_, hresT, ?_, ?_⟩
    · have happ : applyBatch s0 rid [] P T = .ok s3 := by
        simp [applyBatch, logMetricsKV, hokP, hokT]
      unfold logBatch
      rw [h0]
      simp [happ]
    · rw [hp3, hpP]
    · rw [ht3, htP]
  obtain ⟨s1, e1, r1, hb1, hres1, hp1, ht1⟩ := step s e r hres
  obtain ⟨s2, e2, r2, hb2, hres2, hp2, ht2⟩ := step s1 e1 r1 hres1
  refine ⟨s1, e1, r1, s2, e2, r2, hb1, hb2, hres1, hres2, ?_, ?_, ?_, ?_, ?_, ?_⟩
  · intro k
    rw [hp2, hp1, alookup_upsertAll, alookup_upsertAll]
    cases lastVal k P <;> simp
  · intro k
    rw [ht2, ht1, alookup_upsertAll, alookup_upsertAll]
    cases lastVal k T <;> simp
  · intro k v hlast
    constructor
    · rw [hp1, alookup_upsertAll, hlast]
    · rw [hp2, alookup_upsertAll, hlast]
  · intro k v hlast
    constructor
    · rw [ht1, alookup_upsertAll, hlast]
    · rw [ht2, alookup_upsertAll, hlast]
  · intro hnd
    rw [hp2, hp1]
    exact nodup_keysOf_upsertAll _ _ (nodup_keysOf_upsertAll _ _ hnd)
  · intro hnd
    rw [ht2, ht1]
    exact nodup_keysOf_upsertAll _ _ (nodup_keysOf_upsertAll _ _ hnd)

/-- Witness of C6 at a concrete store, with a duplicate tag key in the
single request. -/
theorem claim_C6_witness :
    ∃ s1 e1 r1 s2 e2 r2,
      logBatch wStore "r1" [] [("p", "pv")] [("t", "a"), ("t", "b")] = .ok s1 ∧
      logBatch s1 "r1" [] [("p", "pv")] [("t", "a"), ("t", "b")] = .ok s2 ∧
      resolveRun s1 "r1" = .ok (e1, r1, wMeta) ∧
      resolveRun s2 "r1" = .ok (e2, r2, wMeta) ∧
      (∀ k, alookup k r2.params = alookup k r1.params) ∧
      (∀ k, alookup k r2.tags = alookup k r1.tags) ∧
      (∀ k v, lastVal k [("p", "pv")] = some v →
        alookup k r1.params = some v ∧ alookup k r2.params = some v) ∧
      (∀ k v, lastVal k [("t", "a"), ("t", "b")] = some v →
        alookup k r1.tags = some v ∧ alookup k r2.tags = some v) ∧
      ((keysOf wRun.params).Nodup → (keysOf r2.params).Nodup) ∧
      ((keysOf wRun.tags).Nodup → (keysOf r2.tags).Nodup) :=
  claim_C6_log_batch_idempotent wStore "r1" wExp wRun wMeta rfl rfl
    [("p", "pv")] [("t", "a"), ("t", "b")]

theorem foldl_max_mem_nat (i : Nat) (t : List Nat) : t.foldl max i ∈ i :: t := by
  induction t generalizing i with
  | nil => simp
  | cons x t ih =>
    simp only [List.foldl_cons]
    rcases List.mem_cons.mp (ih (max i x)) with h1 | h1
    · rcases max_choice i x with h2 | h2 <;> rw [h2] at h1 ⊢ <;> simp [h1]
    · simp [h1]

theorem foldl_max_ge_nat (i : Nat) (t : List Nat) : ∀ y ∈ i :: t, y ≤ t.foldl max i := by
  induction t generalizing i with
  | nil =>
    intro y hy
    simp at hy
    simp [hy]
  | cons x t ih =>
    intro y hy
    simp only [List.foldl_cons]
    rcases List.mem_cons.mp hy with h1 | h1
    · subst h1
      exact le_trans (Nat.le_max_left y x) (ih (max y x) _ (by simp))
    · rcases List.mem_cons.mp h1 with h2 | h2
      · subst h2
        exact le_trans (Nat.le_max_right i y) (ih (max i y) _ (by simp))
      · exact ih (max i x) y (by simp [h2])

/-- C7: every successful `create_experiment(name)` on a store with existing
experiments returns `max(existing ids) + 1` — strictly greater than every
previously allocated id — and `get` of the new id yields an experiment named
`name`; the very first experiment on an empty store receives the well-known
default id. -/
theorem claim_C7_create_experiment
    (s : FileStore) (name : String) (hname : name ≠ "")
    (hfree : ∀ x ∈ listExperiments s .ALL, x.name ≠ name)
    (hhealthy : ∀ d ∈ s.root, ∃ m0, d.meta = some m0 ∧ m0.experimentId = d.dirName) :
    ∃ s1, createExperiment s name = .ok (nextExperimentId s, s1) ∧
      (∀ x ∈ listExperiments s .ALL, x.experimentId < nextExperimentId s) ∧
      (listExperiments s .ALL = [] → nextExperimentId s = DEFAULT_EXPERIMENT_ID) ∧
      (listExperiments s .ALL ≠ [] →
        ∃ mx, mx ∈ (listExperiments s .ALL).map (fun x => x.experimentId) ∧
          (∀ i ∈ (listExperiments s .ALL).map (fun x => x.experimentId), i ≤ mx) ∧
          nextExperimentId s = mx + 1) ∧
      ∃ meta, getExperiment s1 (nextExperimentId s) = .ok meta ∧
        meta.name = name ∧ meta.experimentId = nextExperimentId s := by
  have hany : (listExperiments s .ALL).any (fun m0 => m0.name == name) = false := by
    rw [List.any_eq_false]
    intro x hx
    simp [hfree x hx]
  have hok : createExperiment s name =
      .ok (nextExperimentId s, ⟨s.root ++ [newExpDir (nextExperimentId s) name]⟩) := by
    unfold createExperiment
    rw [if_neg hname, hany]
    simp
  have hlt : ∀ x ∈ listExperiments s .ALL, x.experimentId < nextExperimentId s := by
    intro x hx
    unfold nextExperimentId
    cases hids : (listExperiments s .ALL).map (fun m0 => m0.experimentId) with
    | nil =>
      have : x.experimentId ∈ ([] : List Nat) := by
        rw [← hids]
        exact List.mem_map_of_mem _ hx
      simp at this
    | cons i t =>
      have hmem : x.experimentId ∈ i :: t := by
        rw [← hids]
        exact List.mem_map_of_mem _ hx
      have hle := foldl_max_ge_nat i t _ hmem
      show x.experimentId < List.foldl max i t + 1
      omega
  refine ⟨⟨s.root ++ [newExpDir (nextExperimentId s) name]⟩, hok, hlt, ?_, ?_, ?_⟩
  · intro hnil
    unfold nextExperimentId
    rw [hnil]
    simp
  · intro hne
    cases hL : listExperiments s .ALL with
    | nil => exact absurd hL hne
    | cons x0 L0 =>
      refine ⟨(L0.map (fun x => x.experimentId)).foldl max x0.experimentId, ?_, ?_, ?_⟩
      · simpa [hL] using foldl_max_mem_nat x0.experimentId (L0.map (fun x => x.experimentId))
      · intro i hi
        simp only [hL, List.map_cons] at hi
        exact foldl_max_ge_nat _ _ i hi
      · unfold nextExperimentId
        rw [hL]
        simp
  · have hfind : (s.root ++ [newExpDir (nextExperimentId s) name]).find?
        (fun e => e.dirName == nextExperimentId s) = some (newExpDir (nextExperimentId s) name) := by
      rw [List.find?_append]
      have h1 : s.root.find? (fun e => e.dirName == nextExperimentId s) = none := by
        rw [List.find?_eq_none]
        intro d hd
        obtain ⟨m0, hm0, hid⟩ := hhealthy d hd
        have hmem : m0 ∈ listExperiments s .ALL := by
          unfold listExperiments
          rw [List.mem_filterMap]
          exact ⟨d, hd, by simp [hm0, hid, viewTypeMatches]⟩
        have hx := hlt m0 hmem
        simp only [beq_iff_eq]
        intro hEq
        rw [hid, hEq] at hx
        exact lt_irrefl _ hx
      rw [h1]
      simp [newExpDir]
    refine ⟨⟨nextExperimentId s, name, .active⟩, ?_, rfl, rfl⟩
    unfold getExperiment
    rw [hfind]
    simp [newExpDir]

/-- Witness of C7 at a concrete store holding one experiment with id 0: the
new id is 1. -/
theorem claim_C7_witness :
    ∃ s1, createExperiment wStore "exp2" = .ok (nextExperimentId wStore, s1) ∧
      (∀ x ∈ listExperiments wStore .ALL, x.experimentId < nextExperimentId wStore) ∧
      (listExperiments wStore .ALL = [] → nextExperimentId wStore = DEFAULT_EXPERIMENT_ID) ∧
      (listExperiments wStore .ALL ≠ [] →
        ∃ mx, mx ∈ (listExperiments wStore .ALL).map (fun x => x.experimentId) ∧
          (∀ i ∈ (listExperiments wStore .ALL).map (fun x => x.experimentId), i ≤ mx) ∧
          nextExperimentId wStore = mx + 1) ∧
      ∃ meta, getExperiment s1 (nextExperimentId wStore) = .ok meta ∧
        meta.name = "exp2" ∧ meta.experimentId = nextExperimentId wStore :=
  claim_C7_create_experiment wStore "exp2" (by decide)
    (by decide)
    (by
      intro d hd
      simp only [wStore, wExp] at hd
      simp only [List.mem_singleton] at hd
      subst hd
      exact ⟨_, rfl, rfl⟩)

/-- The within-experiment search ordering named by the spec: start time
descending, then run id ascending as tiebreak. -/
def startIdOrd (a b : RunEntry) : Prop :=
  b.info.startTime < a.info.startTime ∨
    (a.info.startTime = b.info.startTime ∧ a.info.runId ≤ b.info.runId)

theorem mem_candidateRuns_single {s : FileStore} {eid : Nat} {vt : ViewType}
    {x : RunEntry} (h : x ∈ candidateRuns s [eid] vt) : x.experimentId = eid := by
  unfold candidateRuns at h
  simp only [List.map_cons, List.map_nil, List.flatten, List.append_nil] at h
  cases hfind : s.root.find? (fun e => e.dirName == eid) with
  | none =>
    rw [hfind] at h
    simp at h
  | some e =>
    rw [hfind] at h
    have hd : e.dirName = eid := by
      have := List.find?_some hfind
      simpa using this
    rw [List.mem_filterMap] at h
    obtain ⟨r, _, hr⟩ := h
    split at hr
    · exact absurd hr (by simp)
    · split at hr
      · have hx := Option.some.inj hr
        rw [← hx]
        exact hd
      · exact absurd hr (by simp)

theorem runOrd_startIdOrd {a b : RunEntry} (hab : a.experimentId = b.experimentId)
    (h : runOrd a b) : startIdOrd a b := by
  unfold runOrd searchKey at h
  rw [Prod.Lex.le_iff] at h
  rcases h with h | ⟨_, h2⟩
  · rw [hab] at h
    exact absurd h (lt_irrefl _)
  · rw [Prod.Lex.le_iff] at h2
    rcases h2 with h2 | ⟨h2, h3⟩
    · exact Or.inl (by simpa [neg_lt_neg_iff] using h2)
    · exact Or.inr ⟨by simpa [neg_inj] using h2, h3⟩

/-- C2: for a `max_results` within the hard ceiling, `search_runs` over one
experiment returns exactly the first `min(n, total)` entries of the
deterministically sorted matching runs — pairwise ordered by start time
descending then run id ascending — and a `max_results` beyond the ceiling
fails with an `InvalidParameterValue`-class error instead of truncating. -/
theorem claim_C2_search_max_results
    (s : FileStore) (eid : Nat) (f : List TagClause) (vt : ViewType) (n : Nat) :
    (n ≤ SEARCH_MAX_RESULTS_THRESHOLD →
      ∃ res, searchRuns s [eid] f vt n = .ok res ∧
        res = (sortRuns ((candidateRuns s [eid] vt).filter
          (fun x => matchesFilter x f))).take n ∧
        res.length = min n ((candidateRuns s [eid] vt).filter
          (fun x => matchesFilter x f)).length ∧
        List.Pairwise startIdOrd res) ∧
    (n > SEARCH_MAX_RESULTS_THRESHOLD →
      ∃ err, searchRuns s [eid] f vt n = .error err ∧
        err.code = .INVALID_PARAMETER_VALUE) := by
  constructor
  · intro hle
    have hok : searchRuns s [eid] f vt n =
        .ok ((sortRuns ((candidateRuns s [eid] vt).filter
          (fun x => matchesFilter x f))).take n) := by
      unfold searchRuns
      rw [if_neg (by omega)]
    refine ⟨_, hok, rfl, ?_, ?_⟩
    · rw [List.length_take]
      have hlen : (sortRuns ((candidateRuns s [eid] vt).filter
          (fun x => matchesFilter x f))).length =
          ((candidateRuns s [eid] vt).filter (fun x => matchesFilter x f)).length :=
        (List.perm_insertionSort runOrd _).length_eq
      rw [hlen]
    · have hsorted : List.Pairwise runOrd (sortRuns ((candidateRuns s [eid] vt).filter
          (fun x => matchesFilter x f))) :=
        List.sorted_insertionSort runOrd _
      have htake : List.Pairwise runOrd ((sortRuns ((candidateRuns s [eid] vt).filter
          (fun x => matchesFilter x f))).take n) :=
        List.Pairwise.sublist (List.take_sublist n _) hsorted
      refine htake.imp_of_mem ?_
      intro a b hamem hbmem hr
      have hmem : ∀ y, y ∈ (sortRuns ((candidateRuns s [eid] vt).filter
          (fun x => matchesFilter x f))).take n → y.experimentId = eid := by
        intro y hy
        have h1 : y ∈ sortRuns ((candidateRuns s [eid] vt).filter
            (fun x => matchesFilter x f)) := (List.take_sublist n _).subset hy
        have h2 : y ∈ (candidateRuns s [eid] vt).filter (fun x => matchesFilter x f) :=
          (List.mem_insertionSort runOrd).mp h1
        exact mem_candidateRuns_single (List.mem_of_mem_filter h2)
      exact runOrd_startIdOrd (by rw [hmem a hamem, hmem b hbmem]) hr
  · intro hgt
    unfold searchRuns
    rw [if_pos hgt]
    exact ⟨_, rfl, rfl⟩

/-- Witness of C2 at a concrete store: an in-range and an out-of-range
`max_results`. -/
theorem claim_C2_witness :
    (∃ res, searchRuns wStore [0] [] .ALL 10 = .ok res ∧
        res = (sortRuns ((candidateRuns wStore [0] .ALL).filter
          (fun x => matchesFilter x []))).take 10 ∧
        res.length = min 10 ((candidateRuns wStore [0] .ALL).filter
          (fun x => matchesFilter x [])).length ∧
        List.Pairwise startIdOrd res) ∧
    (∃ err, searchRuns wStore [0] [] .ALL 60000 = .error err ∧
        err.code = .INVALID_PARAMETER_VALUE) :=
  ⟨(claim_C2_search_max_results wStore 0 [] .ALL 10).1 (by decide),
   (claim_C2_search_max_results wStore 0 [] .ALL 60000).2 (by decide)⟩

theorem evalTagClause_eq_true {x : RunEntry} {k v : String} :
    evalTagClause x ⟨k, .eq, v⟩ = true ↔ alookup k x.tags = some v := by
  unfold evalTagClause
  cases h : alookup k x.tags with
  | none => simp
  | some w => simp [beq_iff_eq]

theorem evalTagClause_ne_true {x : RunEntry} {k v : String} :
    evalTagClause x ⟨k, .ne, v⟩ = true ↔
      ∃ w, alookup k x.tags = some w ∧ w ≠ v := by
  unfold evalTagClause
  cases h : alookup k x.tags with
  | none => simp
  | some w => simp [bne_iff_ne]

theorem searchRuns_full_mem {s : FileStore} {eid : Nat} {vt : ViewType}
    {c : TagClause} {n : Nat}
    (hn : n ≤ SEARCH_MAX_RESULTS_THRESHOLD)
    (hlen : ((candidateRuns s [eid] vt).filter
      (fun x => matchesFilter x [c])).length ≤ n) :
    ∃ res, searchRuns s [eid] [c] vt n = .ok res ∧
      ∀ x, x ∈ res ↔ x ∈ candidateRuns s [eid] vt ∧ evalTagClause x c = true := by
  have hok : searchRuns s [eid] [c] vt n =
      .ok ((sortRuns ((candidateRuns s [eid] vt).filter
        (fun x => matchesFilter x [c]))).take n) := by
    unfold searchRuns
    rw [if_neg (by omega)]
  have hall : (sortRuns ((candidateRuns s [eid] vt).filter
      (fun x => matchesFilter x [c]))).take n =
      sortRuns ((candidateRuns s [eid] vt).filter (fun x => matchesFilter x [c])) := by
    apply List.take_of_length_le
    simp only [sortRuns]
    rw [(List.perm_insertionSort runOrd _).length_eq]
    exact hlen
  refine ⟨_, hok, ?_⟩
  intro x
  rw [hall]
  simp only [sortRuns]
  rw [List.mem_insertionSort, List.mem_filter]
  constructor
  · rintro ⟨h1, h2⟩
    exact ⟨h1, by simpa [matchesFilter] using h2⟩
  · rintro ⟨h1, h2⟩
    exact ⟨h1, by simpa [matchesFilter] using h2⟩

/-- C3 (amended): `tags.k = v` returns exactly the runs whose tag `k` equals
`v`; `tags.k != v` returns exactly the runs that HAVE tag `k` with a value
different from `v` — a run lacking the tag matches neither comparator,
because a clause referencing a missing key evaluates to false. -/
theorem claim_C3_tag_filter
    (s : FileStore) (eid : Nat) (vt : ViewType) (n : Nat) (k v : String)
    (hn : n ≤ SEARCH_MAX_RESULTS_THRESHOLD)
    (hlen1 : ((candidateRuns s [eid] vt).filter
      (fun x => matchesFilter x [⟨k, .eq, v⟩])).length ≤ n)
    (hlen2 : ((candidateRuns s [eid] vt).filter
      (fun x => matchesFilter x [⟨k, .ne, v⟩])).length ≤ n) :
    (∃ res, searchRuns s [eid] [⟨k, StrComp.eq, v⟩] vt n = .ok res ∧
      ∀ x, x ∈ res ↔ x ∈ candidateRuns s [eid] vt ∧ alookup k x.tags = some v) ∧
    (∃ res, searchRuns s [eid] [⟨k, StrComp.ne, v⟩] vt n = .ok res ∧
      ∀ x, x ∈ res ↔ x ∈ candidateRuns s [eid] vt ∧
        ∃ w, alookup k x.tags = some w ∧ w ≠ v) := by
  constructor
  · obtain ⟨res, hok, hmem⟩ := searchRuns_full_mem hn hlen1
    refine ⟨res, hok, ?_⟩
    intro x
    rw [hmem x, evalTagClause_eq_true]
  · obtain ⟨res, hok, hmem⟩ := searchRuns_full_mem hn hlen2
    refine ⟨res, hok, ?_⟩
    intro x
    rw [hmem x, evalTagClause_ne_true]

/-- Run directory with tag k = v, for the C3 scenario. -/
def cRunA : RunDir := ⟨"a", some ⟨"a", 0, 1, .active⟩, [], [("k", "v")], []⟩

/-- Run directory lacking tag k entirely, for the C3 scenario. -/
def cRunB : RunDir := ⟨"b", some ⟨"b", 0, 1, .active⟩, [], [], []⟩

/-- Experiment directory holding both runs of the C3 scenario. -/
def cExpT : ExpDir := ⟨0, some ⟨0, "Default", .active⟩, [cRunA, cRunB]⟩

/-- Store of the C3 scenario. -/
def cStoreT : FileStore := ⟨[cExpT]⟩

/-- Counterexample to C3 as stated: run b lacks tag k, is among the
experiment's runs and is not returned by `tags.k = v` (so it belongs to the
claimed complement), yet `tags.k != v` returns the empty list — the
`!=`-search is not the complement including runs that lack the tag. -/
theorem claim_C3_counterexample :
    searchRuns cStoreT [0] [⟨"k", StrComp.ne, "v"⟩] .ALL 10 = .ok [] ∧
    (⟨0, ⟨"b", 0, 1, .active⟩, []⟩ : RunEntry) ∈ candidateRuns cStoreT [0] .ALL ∧
    searchRuns cStoreT [0] [⟨"k", StrComp.eq, "v"⟩] .ALL 10 =
      .ok [⟨0, ⟨"a", 0, 1, .active⟩, [("k", "v")]⟩] ∧
    ((⟨0, ⟨"b", 0, 1, .active⟩, []⟩ : RunEntry) ∈
      ([⟨0, ⟨"a", 0, 1, .active⟩, [("k", "v")]⟩] : List RunEntry) → False) := by
  refine ⟨?_, ?_, ?_, ?_⟩
  · rfl
  · decide
  · rfl
  · decide

/-- Witness of the amended C3 at the concrete two-run store. -/
theorem claim_C3_witness :
    (∃ res, searchRuns cStoreT [0] [⟨"k", StrComp.eq, "v"⟩] .ALL 10 = .ok res ∧
      ∀ x, x ∈ res ↔ x ∈ candidateRuns cStoreT [0] .ALL ∧
        alookup "k" x.tags = some "v") ∧
    (∃ res, searchRuns cStoreT [0] [⟨"k", StrComp.ne, "v"⟩] .ALL 10 = .ok res ∧
      ∀ x, x ∈ res ↔ x ∈ candidateRuns cStoreT [0] .ALL ∧
        ∃ w, alookup "k" x.tags = some w ∧ w ≠ "v") :=
  claim_C3_tag_filter cStoreT 0 .ALL 10 "k" "v" (by decide) (by decide) (by decide)

/-- C8: a missing metadata document or a recorded id disagreeing with the
directory makes `get_experiment`/`get_run` fail for that entity
(`MissingConfig` or id-mismatch), while `list_experiments` and the search
candidate materialization still succeed and contain exactly the healthy
entities — corrupt ones are skipped, the listing never fails. -/
theorem claim_C8_corruption_detection (s : FileStore) :
    (∀ eid d, s.root.find? (fun e => e.dirName == eid) = some d →
      (d.meta = none → getExperiment s eid =
        .error ⟨.MISSING_CONFIG, "Experiment metadata does not exist"⟩) ∧
      (∀ m0, d.meta = some m0 → m0.experimentId ≠ d.dirName →
        getExperiment s eid =
          .error ⟨.ID_MISMATCH, "Experiment metadata is in invalid state"⟩)) ∧
    (∀ vt x, x ∈ listExperiments s vt ↔
      ∃ d, d ∈ s.root ∧ d.meta = some x ∧ x.experimentId = d.dirName ∧
        viewTypeMatches vt x.lifecycleStage = true) ∧
    (∀ rid e r, findRunDir rid s.root = some (e, r) →
      (r.meta = none → getRun s rid =
        .error ⟨.MISSING_CONFIG, "Run " ++ rid ++ " metadata does not exist"⟩) ∧
      (∀ m0, r.meta = some m0 → m0.experimentId ≠ e.dirName →
        getRun s rid =
          .error ⟨.ID_MISMATCH, "Run " ++ rid ++ " metadata is in invalid state"⟩)) ∧
    (∀ eids vt x, x ∈ candidateRuns s eids vt ↔
      ∃ eid, eid ∈ eids ∧ ∃ d rd, s.root.find? (fun e0 => e0.dirName == eid) = some d ∧
        rd ∈ d.runs ∧ rd.meta = some x.info ∧ rd.tags = x.tags ∧
        x.experimentId = d.dirName ∧ x.info.experimentId = d.dirName ∧
        viewTypeMatches vt x.info.lifecycleStage = true) ∧
    (∀ eids f vt n, n ≤ SEARCH_MAX_RESULTS_THRESHOLD →
      ∃ res, searchRuns s eids f vt n = .ok res) := by
  refine ⟨?_, ?_, ?_, ?_, ?_⟩
  · intro eid d hfind
    constructor
    · intro hmeta
      simp [getExperiment, hfind, hmeta]
    · intro m0 hm0 hne
      simp [getExperiment, hfind, hm0, hne]
  · intro vt x
    unfold listExperiments
    rw [List.mem_filterMap]
    constructor
    · rintro ⟨d, hd, hf⟩
      split at hf
      · exact absurd hf (by simp)
      · rename_i m0 hm0
        split at hf
        · rename_i hcond
          have hx := Option.some.inj hf
          subst hx
          simp only [Bool.and_eq_true, decide_eq_true_eq] at hcond
          exact ⟨d, hd, hm0, hcond.1, hcond.2⟩
        · exact absurd hf (by simp)
    · rintro ⟨d, hd, hmeta, hid, hvt⟩
      refine ⟨d, hd, ?_⟩
      rw [hmeta]
      simp [hid, hvt]
  · intro rid e r hfind
    constructor
    · intro hmeta
      simp [getRun, resolveRun, hfind, hmeta]
    · intro m0 hm0 hne
      simp [getRun, resolveRun, hfind, hm0, hne]
  · intro eids vt x
    obtain ⟨xe, xi, xt⟩ := x
    unfold candidateRuns
    rw [List.mem_flatten]
    constructor
    · rintro ⟨l, hl, hx⟩
      rw [List.mem_map] at hl
      obtain ⟨eid, heid, hleq⟩ := hl
      subst hleq
      refine ⟨eid, heid, ?_⟩
      cases hfind : s.root.find? (fun e0 => e0.dirName == eid) with
      | none =>
        rw [hfind] at hx
        simp at hx
      | some d =>
        rw [hfind] at hx
        rw [List.mem_filterMap] at hx
        obtain ⟨rd, hrd, hf⟩ := hx
        split at hf
        · exact absurd hf (by simp)
        · rename_i m0 hm0
          split at hf
          · rename_i hcond
            have hx2 := Option.some.inj hf
            injection hx2 with h1 h2 h3
            subst h1
            subst h2
            subst h3
            simp only [Bool.and_eq_true, decide_eq_true_eq] at hcond
            exact ⟨d, rd, rfl, hrd, hm0, rfl, rfl, hcond.1, hcond.2⟩
          · exact absurd hf (by simp)
    · rintro ⟨eid, heid, d, rd, hfind, hrd, hmeta, htags, hexp, hinfo, hvt⟩
      refine ⟨_, List.mem_map_of_mem _ heid, ?_⟩
      rw [hfind]
      rw [List.mem_filterMap]
      refine ⟨rd, hrd, ?_⟩
      rw [hmeta]
      simp only at hexp hinfo htags ⊢
      rw [if_pos (by simp [hinfo, hvt])]
      rw [htags, hexp]
  · intro eids f vt n hn
    unfold searchRuns
    rw [if_neg (by omega)]
    exact ⟨_, rfl⟩

/-- Run directory whose recorded experiment id 7 disagrees with its parent
directory 0. -/
def bRunBad : RunDir := ⟨"bad", some ⟨"bad", 7, 1, .active⟩, [], [], []⟩

/-- Healthy experiment directory 0 containing the corrupt run. -/
def bExp0 : ExpDir := ⟨0, some ⟨0, "Default", .active⟩, [bRunBad]⟩

/-- Experiment directory 1 whose metadata document is missing. -/
def bExp1 : ExpDir := ⟨1, none, []⟩

/-- Experiment directory 2 whose metadata records id 9 (renamed directory). -/
def bExp2 : ExpDir := ⟨2, some ⟨9, "Renamed", .active⟩, []⟩

/-- Store with one healthy and two corrupt experiments plus a corrupt run. -/
def bStore : FileStore := ⟨[bExp0, bExp1, bExp2]⟩

/-- Witness of C8 at the corrupted store. -/
theorem claim_C8_witness :
    getExperiment bStore 1 =
      .error ⟨.MISSING_CONFIG, "Experiment metadata does not exist"⟩ ∧
    getExperiment bStore 2 =
      .error ⟨.ID_MISMATCH, "Experiment metadata is in invalid state"⟩ ∧
    getRun bStore "bad" =
      .error ⟨.ID_MISMATCH, "Run " ++ "bad" ++ " metadata is in invalid state"⟩ ∧
    ((⟨9, "Renamed", .active⟩ : ExpMeta) ∈ listExperiments bStore .ALL → False) ∧
    (⟨0, "Default", .active⟩ : ExpMeta) ∈ listExperiments bStore .ALL ∧
    ∃ res, searchRuns bStore [0, 1, 2] [] .ALL 100 = .ok res := by
  refine ⟨?_, ?_, ?_, by decide, by decide, ?_⟩
  · exact ((claim_C8_corruption_detection bStore).1 1 bExp1 rfl).1 rfl
  · exact ((claim_C8_corruption_detection bStore).1 2 bExp2 rfl).2
      ⟨9, "Renamed", .active⟩ rfl (by decide)
  · exact ((claim_C8_corruption_detection bStore).2.2.1 "bad" bExp0 bRunBad rfl).2
      ⟨"bad", 7, 1, .active⟩ rfl (by decide)
  · exact (claim_C8_corruption_detection bStore).2.2.2.2 [0, 1, 2] [] .ALL 100 (by decide)

/-- C9: `log_artifact` and `log_artifacts` reject, before any copy, every
artifact path that is absolute, contains a `..` segment, or collapses to the
repository root, raising the path-validation error; every other (valid
relative, possibly nested) path is accepted. -/
theorem claim_C9_artifact_path_validation
    (root localTree : FsNode) (baseName : String) (size : Nat) (p : String) :
    (isAbsolutePath p = true → path_not_unique p = true) ∧
    ((segmentsOf p).contains ".." = true → path_not_unique p = true) ∧
    ((segmentsOf p).all (fun seg => seg == "" || seg == ".") = true →
      path_not_unique p = true) ∧
    (p ≠ "" → path_not_unique p = true →
      log_artifact root baseName size (some p) =
        .error ("Invalid artifact path: " ++ p) ∧
      log_artifacts root localTree (some p) =
        .error ("Invalid artifact path: " ++ p)) ∧
    (path_not_unique p = false →
      (∃ r1, log_artifact root baseName size (some p) = .ok r1) ∧
      (∃ r2, log_artifacts root localTree (some p) = .ok r2)) := by
  refine ⟨?_, ?_, ?_, ?_, ?_⟩
  · intro h
    unfold path_not_unique
    rw [h]
    simp
  · intro h
    unfold path_not_unique
    rw [h]
    simp
  · intro h
    unfold path_not_unique
    rw [h]
    simp
  · intro hp hpu
    constructor
    · simp only [log_artifact]
      rw [if_pos (by simp [hp, hpu])]
    · simp only [log_artifacts]
      rw [if_pos (by simp [hp, hpu])]
  · intro hpu
    constructor
    · exact ⟨_, by simp only [log_artifact]; rw [if_neg (by simp [hpu])]⟩
    · exact ⟨_, by simp only [log_artifacts]; rw [if_neg (by simp [hpu])]⟩

/-- Witness of C9 at concrete paths: a `..` path and an absolute path are
rejected, a nested relative path is accepted. -/
theorem claim_C9_witness :
    log_artifact (FsNode.dir []) "test.txt" 12 (some "../terrible_path") =
      .error ("Invalid artifact path: " ++ "../terrible_path") ∧
    log_artifacts (FsNode.dir []) (FsNode.dir []) (some "/tmp") =
      .error ("Invalid artifact path: " ++ "/tmp") ∧
    (∃ r1, log_artifact (FsNode.dir []) "test.txt" 12 (some "bbb/ccc") = .ok r1) := by
  refine ⟨?_, ?_, ?_⟩
  · exact ((claim_C9_artifact_path_validation (FsNode.dir []) (FsNode.dir [])
      "test.txt" 12 "../terrible_path").2.2.2.1 (by decide) (by decide)).1
  · exact ((claim_C9_artifact_path_validation (FsNode.dir []) (FsNode.dir [])
      "test.txt" 12 "/tmp").2.2.2.1 (by decide) (by decide)).2
  · exact ((claim_C9_artifact_path_validation (FsNode.dir []) (FsNode.dir [])
      "test.txt" 12 "bbb/ccc").2.2.2.2 (by decide)).1

/-- C10: `list_artifacts` returns the resolved directory's file infos sorted
ascending by path (a permutation of the directory entries), and returns the
empty list — never an error — when the resolved path does not exist, names a
plain file, or the repository is freshly created and empty. -/
theorem claim_C10_list_artifacts_sorted
    (root : FsNode) (path : Option String) :
    List.Pairwise fileInfoOrd (list_artifacts root path) ∧
    (resolveNode root (destSegments path) = none → list_artifacts root path = []) ∧
    (∀ sz, resolveNode root (destSegments path) = some (.file sz) →
      list_artifacts root path = []) ∧
    (∀ p1, list_artifacts (FsNode.dir []) p1 = []) ∧
    (∀ es, resolveNode root (destSegments path) = some (.dir es) →
      (list_artifacts root path).Perm (es.map (entryInfo (relPrefixOf path)))) := by
  refine ⟨?_, ?_, ?_, ?_, ?_⟩
  · unfold list_artifacts
    split
    · exact List.sorted_insertionSort fileInfoOrd _
    · exact List.Pairwise.nil
  · intro h
    unfold list_artifacts
    rw [h]
  · intro sz h
    unfold list_artifacts
    rw [h]
  · intro p1
    cases hsegs : destSegments p1 with
    | nil => simp [list_artifacts, hsegs, resolveNode]
    | cons a t => simp [list_artifacts, hsegs, resolveNode, alookup]
  · intro es h
    unfold list_artifacts
    rw [h]
    exact List.perm_insertionSort fileInfoOrd _

/-- Concrete artifact tree used by the C10 witness. -/
def w10Root : FsNode :=
  .dir [("b.txt", .file 1), ("a.txt", .file 2), ("sub", .dir [])]

/-- Witness of C10 at a concrete tree: sorted listing, missing path, empty
repository. -/
theorem claim_C10_witness :
    List.Pairwise fileInfoOrd (list_artifacts w10Root none) ∧
    list_artifacts w10Root (some "zz") = [] ∧
    list_artifacts (FsNode.dir []) none = [] := by
  refine ⟨?_, ?_, ?_⟩
  · exact (claim_C10_list_artifacts_sorted w10Root none).1
  · exact (claim_C10_list_artifacts_sorted w10Root (some "zz")).2.1 rfl
  · exact (claim_C10_list_artifacts_sorted (FsNode.dir []) none).2.2.2.1 none
